import Mathlib

/-!
Verification of the `catalog` application: data model predicates
(`catalog/models.py`), the spreadsheet import pipeline
(`catalog/management/commands/import_data.py`), and the product-delete
view (`catalog/views.py`), shallowly embedded in Lean.

Conventions of the embedding:
* Python values that flow through the importer cells are modelled by
  `Cell` (`None`, strings, ints, floats, datetimes); `str()` is `cellStr`,
  truthiness is `Cell.falsy`, and `x or d` is `pyOr`.
* Python `float()` / `int()` on strings are modelled by `pyFloat` /
  `pyIntStr` over exact rationals (sign, digits, optional decimal point;
  the exponent / inf / nan / underscore spellings that the import files
  never use are not modelled).  Machine floats are modelled by `Rat`.
* The database tables are Lean lists; `get_or_create` /
  `update_or_create` are explicit read-by-key-else-append functions.
* The `and` short-circuit in the role predicates returns a `PyVal`
  (either `None` or a bool), mirroring `self.role and ...`.
-/

/-- Result value of the capability predicates in `catalog/models.py`:
`self.role and <bool>` evaluates to Python `None` when `role` is null,
and to a genuine bool otherwise. -/
inductive PyVal where
  | none
  | bool (b : Bool)
deriving DecidableEq, Repr

/-- Python truthiness of a capability-predicate result. -/
def PyVal.truthy : PyVal → Bool
  | .none => false
  | .bool b => b

/-- `Role` model: a row of the role table (`name` is the business key). -/
structure Role where
  name : String
deriving DecidableEq, Repr

/-- `Role.GUEST` class attribute. -/
def Role.GUEST : String := "guest"

/-- `Role.CLIENT` class attribute. -/
def Role.CLIENT : String := "client"

/-- `Role.MANAGER` class attribute. -/
def Role.MANAGER : String := "manager"

/-- `Role.ADMIN` class attribute. -/
def Role.ADMIN : String := "admin"

/-- `User` model: the fields the capability predicates consult.
`role` is a nullable foreign key. -/
structure User where
  username : String
  full_name : String
  role : Option Role
deriving DecidableEq, Repr

/-- `User.is_admin`: `self.role and self.role.name == Role.ADMIN`. -/
def User.is_admin (u : User) : PyVal :=
  match u.role with
  | Option.none => PyVal.none
  | Option.some r => PyVal.bool (r.name == Role.ADMIN)

/-- `User.is_manager`: `self.role and self.role.name == Role.MANAGER`. -/
def User.is_manager (u : User) : PyVal :=
  match u.role with
  | Option.none => PyVal.none
  | Option.some r => PyVal.bool (r.name == Role.MANAGER)

/-- `User.can_filter`: `self.role and self.role.name in [Role.MANAGER, Role.ADMIN]`. -/
def User.can_filter (u : User) : PyVal :=
  match u.role with
  | Option.none => PyVal.none
  | Option.some r => PyVal.bool ([Role.MANAGER, Role.ADMIN].contains r.name)

/-- `User.can_edit_products`: `self.role and self.role.name == Role.ADMIN`. -/
def User.can_edit_products (u : User) : PyVal :=
  match u.role with
  | Option.none => PyVal.none
  | Option.some r => PyVal.bool (r.name == Role.ADMIN)

/-- `User.can_view_orders`: `self.role and self.role.name in [Role.MANAGER, Role.ADMIN]`. -/
def User.can_view_orders (u : User) : PyVal :=
  match u.role with
  | Option.none => PyVal.none
  | Option.some r => PyVal.bool ([Role.MANAGER, Role.ADMIN].contains r.name)

/-- `User.can_edit_orders`: `self.role and self.role.name == Role.ADMIN`. -/
def User.can_edit_orders (u : User) : PyVal :=
  match u.role with
  | Option.none => PyVal.none
  | Option.some r => PyVal.bool (r.name == Role.ADMIN)

/-- `Product` model: the persisted fields (decimal columns as exact
rationals, the image as an optional stored path). -/
structure ProdRec where
  article : String
  name : String
  unit : String
  price : ℚ
  discount : ℚ
  stock : Int
  description : String
  image : Option String
  category : String
  manufacturer : String
  supplier : String
deriving DecidableEq, Repr

/-- `Product.get_final_price`. -/
def ProdRec.get_final_price (p : ProdRec) : ℚ :=
  if p.discount > 0 then p.price * (1 - p.discount / 100) else p.price

/-- `Product.has_discount`: `self.discount > 0`. -/
def ProdRec.has_discount (p : ProdRec) : Bool :=
  p.discount > 0

/-- `Product.get_row_class`: `'table-info'` when `stock == 0`, else
`'row-sale'` when `discount > 15`, else `''`. -/
def ProdRec.get_row_class (p : ProdRec) : String :=
  if p.stock == 0 then "table-info"
  else if p.discount > 15 then "row-sale"
  else ""

/-- Calendar date (`datetime.date`). -/
structure Date where
  year : Nat
  month : Nat
  day : Nat
deriving DecidableEq, Repr

/-- `Order.STATUS_NEW` class attribute. -/
def STATUS_NEW : String := "new"

/-- `Order.STATUS_COMPLETED` class attribute. -/
def STATUS_COMPLETED : String := "completed"

/-- `Order.STATUS_CANCELLED` class attribute. -/
def STATUS_CANCELLED : String := "cancelled"

/-- `Order` model: the fields the importer writes.  `delivery_point` is
kept as the matched address (the delivery-point table is keyed by
address in this embedding). -/
structure OrderRec where
  number : Int
  article : String
  order_date : Date
  delivery_date : Option Date
  delivery_point : Option String
  client_name : String
  pickup_code : String
  status : String
deriving DecidableEq, Repr

/-! ### Python value primitives

Character-list implementations of the string operations the importer
uses (`strip`, `replace`, `lower`, slicing, `in`), and of `float()` /
`int()` string coercion.  They are written over `List Char` so that
every definition reduces in the kernel. -/

/-- Both-ends whitespace trim of a character list (`str.strip()`). -/
def trimChars (cs : List Char) : List Char :=
  ((cs.dropWhile Char.isWhitespace).reverse.dropWhile Char.isWhitespace).reverse

/-- `str.strip()`. -/
def pyStrip (s : String) : String :=
  String.mk (trimChars s.data)

/-- Value of a list of decimal digit characters. -/
def digitsToNat (l : List Char) : Nat :=
  l.foldl (fun a c => a * 10 + (c.toNat - 48)) 0

/-- Unsigned part of Python `float()` on a string: digits with an
optional decimal point (`"15"`, `"15."`, `".5"`, `"1.25"`).  The
exponent / `inf` / `nan` / underscore spellings, which the import files
never contain, are not modelled. -/
def pyFloatCore (cs : List Char) : Option ℚ :=
  match cs.dropWhile Char.isDigit with
  | [] => if (cs.takeWhile Char.isDigit).isEmpty then none else some ((digitsToNat cs : Nat) : ℚ)
  | '.' :: fs =>
      if fs.all Char.isDigit && (!(cs.takeWhile Char.isDigit).isEmpty || !fs.isEmpty) then
        some (((digitsToNat (cs.takeWhile Char.isDigit)) : ℚ)
          + ((digitsToNat fs : Nat) : ℚ) / ((10 : ℚ) ^ fs.length))
      else none
  | _ => none

/-- Python `float()` on a string: strip whitespace, optional sign,
then an unsigned decimal number; `none` models `ValueError`. -/
def pyFloat (s : String) : Option ℚ :=
  match trimChars s.data with
  | [] => none
  | '+' :: cs => pyFloatCore cs
  | '-' :: cs => (pyFloatCore cs).map (fun q => -q)
  | cs => pyFloatCore cs

/-- Python `int()` on a string: strip whitespace, optional sign, digits
only (a decimal point is a `ValueError`, modelled as `none`). -/
def pyIntStr (s : String) : Option Int :=
  match trimChars s.data with
  | [] => none
  | '+' :: cs => if !cs.isEmpty && cs.all Char.isDigit then some (digitsToNat cs : Int) else none
  | '-' :: cs => if !cs.isEmpty && cs.all Char.isDigit then some (-(digitsToNat cs : Int)) else none
  | cs => if cs.all Char.isDigit then some (digitsToNat cs : Int) else none

/-- Truncation toward zero, as Python `int()` applied to a float. -/
def ratTrunc (q : ℚ) : Int :=
  if q < 0 then -((-q).num / ((-q).den : Int)) else q.num / (q.den : Int)

/-- A spreadsheet cell as handed to the importer by the workbook
library: blank (`None`), text, an integral number, a non-integral
number, or a date-typed cell (a `datetime`). -/
inductive Cell where
  | empty
  | str (s : String)
  | int (n : Int)
  | float (q : ℚ)
  | date (d : Date)
deriving DecidableEq, Repr

/-- Python falsiness of a cell value (`not x` / `x or d`). -/
def Cell.falsy : Cell → Bool
  | .empty => true
  | .str s => s.data.isEmpty
  | .int n => n == 0
  | .float q => q == 0
  | .date _ => false

/-- Fractional decimal digits of a nonnegative rational, used by the
float renderer (fuel-bounded). -/
def fracDigitChars : ℚ → Nat → List Char
  | _, 0 => []
  | x, n + 1 =>
      if x == 0 then []
      else
        let d : Int := ratTrunc (x * 10)
        Char.ofNat (48 + d.toNat) :: fracDigitChars (x * 10 - (d : ℚ)) n

/-- Two-digit zero padding. -/
def pad2 (n : Nat) : String :=
  if n < 10 then "0" ++ toString n else toString n

/-- Decimal rendering of a float cell, approximating Python `str()` on
a float (sign, integer part, fractional digits, at least one fractional
digit). -/
def floatRepr (q : ℚ) : String :=
  let sign : String := if q < 0 then "-" else ""
  let a : ℚ := if q < 0 then -q else q
  let ip : Int := ratTrunc a
  let fr := fracDigitChars (a - (ip : ℚ)) 17
  sign ++ toString ip ++ "." ++ (if fr.isEmpty then "0" else String.mk fr)

/-- Rendering of a datetime cell, approximating Python `str()` on a
midnight `datetime`. -/
def dateRepr (d : Date) : String :=
  toString d.year ++ "-" ++ pad2 d.month ++ "-" ++ pad2 d.day ++ " 00:00:00"

/-- Python `str()` on a cell value; note `str(None) = "None"`. -/
def cellStr : Cell → String
  | .empty => "None"
  | .str s => s
  | .int n => toString n
  | .float q => floatRepr q
  | .date d => dateRepr d

/-- Python `x or 0` on a cell. -/
def pyOr0 (c : Cell) : Cell :=
  if c.falsy then Cell.int 0 else c

/-- Python `x or ''` on a cell. -/
def pyOrEmptyStr (c : Cell) : Cell :=
  if c.falsy then Cell.str "" else c

/-- Python `int()` on a cell value: `None` and datetimes raise
`TypeError` (`none`), strings are parsed, floats truncate toward 0. -/
def pyIntOfCell : Cell → Option Int
  | .empty => none
  | .str s => pyIntStr s
  | .int n => some n
  | .float q => some (ratTrunc q)
  | .date _ => none

/-- A spreadsheet row as the importer sees it after
`dict(zip(headers, row))`: header-keyed cells.  The first pair carries the cell
`row[0]`.  Header names are distinct in the import files, so a
first-match lookup agrees with the Python dict. -/
abbrev Row := List (String × Cell)

/-- `data.get(key, default)`. -/
def rowGet (r : Row) (k : String) (d : Cell) : Cell :=
  (List.lookup k r).getD d

/-- `row[0]`. -/
def rowFirst (r : Row) : Cell :=
  match r with
  | [] => Cell.empty
  | (_, c) :: _ => c

/-- The `if not row[0]: continue` guard shared by the product and
order importers. -/
def rowSkip (r : Row) : Bool :=
  (rowFirst r).falsy

/-! ### Product import (`Command._import_products`)

The four tables the product importer touches are lists; lookup tables
are lists of names and `get_or_create` is read-by-key-else-append.
`update_or_create(article=..., defaults=...)` overwrites the `defaults`
fields of the matching product (keeping its image) or appends a fresh
product with no image.  The photo step then sets the image only when
the photo cell is non-empty, the product has no image yet, and the file
exists at the images path (`fe` abstracts `os.path.exists` at that
path, fixed for a run). -/

/-- The `defaults` dict passed to `Product.objects.update_or_create`. -/
structure ProdFields where
  name : String
  unit : String
  price : ℚ
  discount : ℚ
  stock : Int
  description : String
  category : String
  manufacturer : String
  supplier : String
deriving DecidableEq, Repr

/-- Overwrite the `defaults` fields of an existing product (its article
and image are untouched). -/
def ProdRec.withFields (p : ProdRec) (d : ProdFields) : ProdRec :=
  { p with
    name := d.name, unit := d.unit, price := d.price, discount := d.discount,
    stock := d.stock, description := d.description, category := d.category,
    manufacturer := d.manufacturer, supplier := d.supplier }

/-- The `defaults` fields of a product record. -/
def ProdRec.fieldsOf (p : ProdRec) : ProdFields :=
  ⟨p.name, p.unit, p.price, p.discount, p.stock, p.description,
   p.category, p.manufacturer, p.supplier⟩

/-- A freshly created product: `article`, the `defaults`, no image. -/
def newProd (a : String) (d : ProdFields) : ProdRec :=
  ⟨a, d.name, d.unit, d.price, d.discount, d.stock, d.description,
   Option.none, d.category, d.manufacturer, d.supplier⟩

/-- `get_or_create(name=n)` on a lookup table (Category, Manufacturer,
Supplier): fetch by unique name or append. -/
def getOrCreateName (l : List String) (n : String) : List String :=
  if n ∈ l then l else l ++ [n]

/-- Overwrite the defaults of the record if its article matches. -/
def updFields (a : String) (d : ProdFields) (p : ProdRec) : ProdRec :=
  if p.article == a then p.withFields d else p

/-- `Product.objects.update_or_create(article=a, defaults=d)`:
overwrite the defaults of the product with this article, or append a
new one. -/
def upsertProduct (l : List ProdRec) (a : String) (d : ProdFields) : List ProdRec :=
  if l.any (fun p => p.article == a) then l.map (updFields a d)
  else l ++ [newProd a d]

/-- The image of the product with the given unique article. -/
def imageOf (l : List ProdRec) (a : String) : Option String :=
  (l.find? (fun p => p.article == a)).bind ProdRec.image

/-- Python falsiness of `product.image` (no file, or an empty name). -/
def imageFalsy : Option String → Bool
  | Option.none => true
  | Option.some s => s.data.isEmpty

/-- `product.image = f'products/{photo}'; product.save()` for the
product with the given article. -/
def setImage (l : List ProdRec) (a : String) (img : String) : List ProdRec :=
  l.map (fun p => if p.article == a then { p with image := Option.some img } else p)

/-- `float(str(data.get('Действующая скидка', 0) or 0).replace('%', '').strip())`
with `0.0` on failure.  `.replace('%','')` removes every percent sign. -/
def stripPercents (s : String) : String :=
  String.mk (s.data.filter (fun c => c != '%'))

/-- Discount parsing of the product importer. -/
def parse_discount (c : Cell) : ℚ :=
  (pyFloat (pyStrip (stripPercents (cellStr (pyOr0 c))))).getD 0

/-- `str.replace(',', '.')`. -/
def commaToPoint (s : String) : String :=
  String.mk (s.data.map (fun c => if c = ',' then '.' else c))

/-- `float(str(data.get('Цена', 0)).replace(',', '.'))` with `0.0` on
failure. -/
def parse_price (c : Cell) : ℚ :=
  (pyFloat (commaToPoint (cellStr c))).getD 0

/-- `int(data.get('Кол-во на складе', 0) or 0)` with `0` on failure. -/
def parse_stock (c : Cell) : Int :=
  (pyIntOfCell (pyOr0 c)).getD 0

/-- `str(data.get('Категория товара', 'Без категории')).strip()`. -/
def catName (r : Row) : String :=
  pyStrip (cellStr (rowGet r "Категория товара" (Cell.str "Без категории")))

/-- `str(data.get('Производитель', 'Неизвестен')).strip()`. -/
def manName (r : Row) : String :=
  pyStrip (cellStr (rowGet r "Производитель" (Cell.str "Неизвестен")))

/-- `str(data.get('Поставщик', 'Неизвестен')).strip()`. -/
def supName (r : Row) : String :=
  pyStrip (cellStr (rowGet r "Поставщик" (Cell.str "Неизвестен")))

/-- `str(data.get('Артикул', '')).strip()`. -/
def prodArticle (r : Row) : String :=
  pyStrip (cellStr (rowGet r "Артикул" (Cell.str "")))

/-- `str(data.get('Фото', '') or '').strip()`. -/
def prodPhoto (r : Row) : String :=
  pyStrip (cellStr (pyOrEmptyStr (rowGet r "Фото" (Cell.str ""))))

/-- The `defaults` dict built from a product row. -/
def prodFields (r : Row) : ProdFields :=
  { name := pyStrip (cellStr (rowGet r "Наименование товара" (Cell.str "")))
    unit := pyStrip (cellStr (rowGet r "Единица измерения" (Cell.str "пара")))
    price := parse_price (rowGet r "Цена" (Cell.int 0))
    discount := parse_discount (rowGet r "Действующая скидка" (Cell.int 0))
    stock := parse_stock (rowGet r "Кол-во на складе" (Cell.int 0))
    description := pyStrip (cellStr (pyOrEmptyStr (rowGet r "Описание товара" (Cell.str ""))))
    category := catName r
    manufacturer := manName r
    supplier := supName r }

/-- The photo block after the upsert: `if photo and not product.image:`
then `if os.path.exists(src):` copy and record `products/{photo}`
(`fe` abstracts `os.path.exists` under the images path). -/
def photoStep (fe : String → Bool) (l1 : List ProdRec) (a photo : String) : List ProdRec :=
  if !photo.data.isEmpty && imageFalsy (imageOf l1 a) then
    if fe photo then setImage l1 a ("products/" ++ photo) else l1
  else l1

/-- Effect of one product row on the product table: skip on a falsy
first cell; otherwise upsert by trimmed article, then run the photo
block on the upserted product. -/
def prodStep (fe : String → Bool) (l : List ProdRec) (r : Row) : List ProdRec :=
  if rowSkip r then l
  else photoStep fe (upsertProduct l (prodArticle r) (prodFields r)) (prodArticle r) (prodPhoto r)

/-- Effect of one product row on one lookup table (`f` extracts the
trimmed name): skip on a falsy first cell, else `get_or_create`. -/
def nameStep (f : Row → String) (l : List String) (r : Row) : List String :=
  if rowSkip r then l else getOrCreateName l (f r)

/-- The tables touched by the product importer. -/
structure PStore where
  categories : List String
  manufacturers : List String
  suppliers : List String
  products : List ProdRec
deriving DecidableEq, Repr

/-- One iteration of the row loop of the product importer. -/
def importProductRow (fe : String → Bool) (st : PStore) (r : Row) : PStore :=
  { categories := nameStep catName st.categories r
    manufacturers := nameStep manName st.manufacturers r
    suppliers := nameStep supName st.suppliers r
    products := prodStep fe st.products r }

/-- `Command._import_products`: fold the row loop over the data rows. -/
def importProducts (fe : String → Bool) (st : PStore) (rows : List Row) : PStore :=
  rows.foldl (importProductRow fe) st

/-- The `defaults` values that the rows of a run still pending will
write to a given article: the fields of every non-skipped row whose
trimmed article matches.  Used to reason about which
row has the values an import run leaves behind (the last one wins). -/
def pendingA (rows : List Row) (a : String) : List ProdFields :=
  rows.filterMap (fun r =>
    if rowSkip r = false ∧ prodArticle r = a then some (prodFields r) else none)

/-! ### Order import (`Command._import_orders`) -/

/-- `lst.all(isdigit)`-style check plus length bounds used by
`strptime('%d.%m.%Y')`: the day and month directives accept one or two
digits (bounded by 31 / 12), the year exactly four. -/
def isLeap (y : Nat) : Bool :=
  y % 4 == 0 && (y % 100 != 0 || y % 400 == 0)

/-- Days in a month of the proleptic Gregorian calendar. -/
def daysInMonth (y m : Nat) : Nat :=
  if m == 2 then (if isLeap y then 29 else 28)
  else if m == 4 || m == 6 || m == 9 || m == 11 then 30
  else 31

/-- Split a character list on `'.'` (every occurrence). -/
def splitOnDot : List Char → List (List Char)
  | [] => [[]]
  | '.' :: rest => [] :: splitOnDot rest
  | c :: rest =>
      match splitOnDot rest with
      | [] => [[c]]
      | g :: gs => (c :: g) :: gs

/-- `datetime.strptime(val, '%d.%m.%Y')`: three dot-separated digit
groups (day 1-2 digits, month 1-2 digits, year 4 digits), validated as
a real calendar date; `none` models `ValueError`. -/
def strptimeDMY (s : String) : Option Date :=
  match splitOnDot s.data with
  | [ds, ms, ys] =>
      if ds.all Char.isDigit ∧ ms.all Char.isDigit ∧ ys.all Char.isDigit
          ∧ 1 ≤ ds.length ∧ ds.length ≤ 2 ∧ 1 ≤ ms.length ∧ ms.length ≤ 2
          ∧ ys.length = 4 then
        let d := digitsToNat ds
        let m := digitsToNat ms
        let y := digitsToNat ys
        if 1 ≤ d ∧ 1 ≤ m ∧ m ≤ 12 ∧ d ≤ daysInMonth y m ∧ 1 ≤ y then
          some ⟨y, m, d⟩
        else none
      else none
  | _ => none

/-- One warning line written by `parse_date` on an invalid date string:
the f-string interpolates the order number, the date label
(`заказа` / `доставки`) and the offending value. -/
structure Warn where
  number : Int
  label : String
  value : String
deriving DecidableEq, Repr

/-- The nested `parse_date(val, label)` helper of `_import_orders`:
strings are parsed as `DD.MM.YYYY`, falling back to the current date
with a warning; datetime cells contribute their date; anything else
(including a blank cell) yields `None` silently. -/
def parse_date (number : Int) (label : String) (today : Date) (val : Cell) :
    Option Date × List Warn :=
  match val with
  | .str s =>
      match strptimeDMY s with
      | some d => (some d, [])
      | none => (some today, [⟨number, label, s⟩])
  | .date d => (some d, [])
  | _ => (none, [])

/-- Character-list check that the first list starts the second. -/
def leadsWith : List Char → List Char → Bool
  | [], _ => true
  | _ :: _, [] => false
  | a :: pat, b :: rest => a == b && leadsWith pat rest

/-- Character-list substring check. -/
def hasSub (hay needle : List Char) : Bool :=
  match hay with
  | [] => needle.isEmpty
  | _ :: t => leadsWith needle hay || hasSub t needle

/-- Per-character `str.lower()` covering the Latin and Cyrillic letters
the import data uses. -/
def lowerChar (c : Char) : Char :=
  if 'A' ≤ c ∧ c ≤ 'Z' then Char.ofNat (c.toNat + 32)
  else if 0x410 ≤ c.toNat ∧ c.toNat ≤ 0x42F then Char.ofNat (c.toNat + 32)
  else if c.toNat = 0x401 then Char.ofNat 0x451
  else c

/-- `str.lower()` (per-character, as the case-insensitive lookup
lowercases both sides). -/
def lowerStr (s : String) : String :=
  String.mk (s.data.map lowerChar)

/-- Django `address__icontains=needle`: case-insensitive substring
match. -/
def icontains (hay needle : String) : Bool :=
  hasSub (lowerStr hay).data (lowerStr needle).data

/-- `s[:30]` (Python slice of the first 30 characters). -/
def strTake30 (s : String) : String :=
  String.mk (s.data.take 30)

/-- The mutable state of the order importer: the delivery-point table it
reads, the order table it appends to, and the warnings it prints. -/
structure OState where
  deliveryPoints : List String
  orders : List OrderRec
  warnings : List Warn
deriving DecidableEq, Repr

/-- The status label map of `_import_orders`, with default
`Order.STATUS_NEW`. -/
def statusOf (label : String) : String :=
  if label == "Завершен" then STATUS_COMPLETED
  else if label == "Новый" then STATUS_NEW
  else if label == "Отменен" then STATUS_CANCELLED
  else STATUS_NEW

/-- One iteration of the row loop of the order importer: skip on a falsy
first cell; skip when the order-number cell does not coerce to `int`;
otherwise resolve the delivery point by a case-insensitive substring
match on the first 30 characters of the trimmed address, parse both
dates (the order date falling back to the current date), and
`get_or_create` by unique order number — an existing number leaves the
order table unchanged. -/
def importOrderRow (today : Date) (st : OState) (r : Row) : OState :=
  if rowSkip r then st
  else
    match pyIntOfCell (rowGet r "Номер заказа" (Cell.int 0)) with
    | Option.none => st
    | Option.some number =>
        let dp_address := pyStrip (cellStr (pyOrEmptyStr (rowGet r "Адрес пункта выдачи" (Cell.str ""))))
        let delivery_point :=
          if !dp_address.data.isEmpty then
            st.deliveryPoints.find? (fun a => icontains a (strTake30 dp_address))
          else Option.none
        let od := parse_date number "заказа" today (rowGet r "Дата заказа" Cell.empty)
        let dd := parse_date number "доставки" today (rowGet r "Дата доставки" Cell.empty)
        let order_date := od.1.getD today
        let st1 : OState := { st with warnings := st.warnings ++ od.2 ++ dd.2 }
        if st1.orders.any (fun o => o.number == number) then st1
        else
          { st1 with
            orders := st1.orders ++
              [{ number := number
                 article := pyStrip (cellStr (pyOrEmptyStr (rowGet r "Артикул заказа" (Cell.str ""))))
                 order_date := order_date
                 delivery_date := dd.1
                 delivery_point := delivery_point
                 client_name := pyStrip (cellStr (pyOrEmptyStr (rowGet r "ФИО авторизированного клиента" (Cell.str ""))))
                 pickup_code := pyStrip (cellStr (pyOrEmptyStr (rowGet r "Код для получения" (Cell.str ""))))
                 status := statusOf (pyStrip (cellStr (rowGet r "Статус заказа" (Cell.str "Новый")))) }] }

/-- `Command._import_orders`: fold the row loop over the data rows. -/
def importOrders (today : Date) (st : OState) (rows : List Row) : OState :=
  rows.foldl (importOrderRow today) st

/-! ### Product-delete view (`catalog/views.py`, `product_delete`)

The observable outcome of the view: a redirect carrying an error or success
message, the confirmation page, or a 404.  `pk` is the position of the
product row in the table (a stand-in for the database primary key). -/

/-- The store state the view reads and writes. -/
structure WebState where
  products : List ProdRec
  orders : List OrderRec
deriving DecidableEq, Repr

/-- Observable outcome of the view. -/
inductive ViewResult where
  | redirectError (msg : String)
  | redirectSuccess (msg : String)
  | confirmPage
  | http404
deriving DecidableEq, Repr

/-- The referential-conflict message `f'Нельзя удалить «{name}» — есть связанные заказы.'`. -/
def conflictMsg (name : String) : String :=
  "Нельзя удалить «" ++ name ++ "» — есть связанные заказы."

/-- `product_delete(request, pk)`: permission gate, fetch-or-404, the
`Order.objects.filter(article=product.article).exists()` guard, then
deletion only on POST. -/
def product_delete (u : User) (st : WebState) (pk : Nat) (isPost : Bool) :
    WebState × ViewResult :=
  if !(u.can_edit_products).truthy then
    (st, ViewResult.redirectError "Недостаточно прав.")
  else
    match st.products[pk]? with
    | Option.none => (st, ViewResult.http404)
    | Option.some product =>
        if st.orders.any (fun o => o.article == product.article) then
          (st, ViewResult.redirectError (conflictMsg product.name))
        else if isPost then
          ({ st with products := st.products.eraseIdx pk },
           ViewResult.redirectSuccess ("Товар «" ++ product.name ++ "» удалён."))
        else (st, ViewResult.confirmPage)

/-! ### Claims -/

/-- C2, counterexample: a user with a null role gets Python `None` —
a falsy value, but not the boolean `False` — out of every capability
predicate, because `self.role and ...` short-circuits to `self.role`. -/
theorem null_role_counterexample :
    (User.is_admin ⟨"guest", "Гость", Option.none⟩ = PyVal.none
      ∧ User.is_manager ⟨"guest", "Гость", Option.none⟩ = PyVal.none
      ∧ User.can_filter ⟨"guest", "Гость", Option.none⟩ = PyVal.none
      ∧ User.can_edit_products ⟨"guest", "Гость", Option.none⟩ = PyVal.none
      ∧ User.can_view_orders ⟨"guest", "Гость", Option.none⟩ = PyVal.none
      ∧ User.can_edit_orders ⟨"guest", "Гость", Option.none⟩ = PyVal.none)
    ∧ PyVal.none ≠ PyVal.bool false := by
  decide

/-- C2, amended: for every user whose role reference is null, each of
the six capability predicates returns Python `None` — not an error, and
falsy (its truthiness is `false`) — rather than the boolean `False`. -/
theorem null_role_predicates_return_none (u : User) (h : u.role = Option.none) :
    (u.is_admin = PyVal.none ∧ u.is_manager = PyVal.none
      ∧ u.can_filter = PyVal.none ∧ u.can_edit_products = PyVal.none
      ∧ u.can_view_orders = PyVal.none ∧ u.can_edit_orders = PyVal.none)
    ∧ (u.is_admin.truthy = false ∧ u.is_manager.truthy = false
      ∧ u.can_filter.truthy = false ∧ u.can_edit_products.truthy = false
      ∧ u.can_view_orders.truthy = false ∧ u.can_edit_orders.truthy = false) := by
  simp [User.is_admin, User.is_manager, User.can_filter, User.can_edit_products,
    User.can_view_orders, User.can_edit_orders, h, PyVal.truthy]

/-- C2, witness: the amended statement evaluated on a concrete
role-less user. -/
theorem null_role_predicates_return_none_witness :
    User.is_admin ⟨"guest", "Гость", Option.none⟩ = PyVal.none
    ∧ (User.is_admin ⟨"guest", "Гость", Option.none⟩).truthy = false :=
  ⟨(null_role_predicates_return_none ⟨"guest", "Гость", Option.none⟩ rfl).1.1,
   (null_role_predicates_return_none ⟨"guest", "Гость", Option.none⟩ rfl).2.1⟩

/-- C10: capabilities are monotone in role rank: editing products
implies filtering, editing orders implies viewing orders, and an admin
holds both manager-level capabilities. -/
theorem capability_monotone (u : User) :
    ((u.can_edit_products).truthy = true → (u.can_filter).truthy = true)
    ∧ ((u.can_edit_orders).truthy = true → (u.can_view_orders).truthy = true)
    ∧ ((u.is_admin).truthy = true →
        (u.can_filter).truthy = true ∧ (u.can_view_orders).truthy = true) := by
  rcases u with ⟨un, fn, _ | r⟩
  · simp [User.can_edit_products, User.can_filter, User.can_edit_orders,
      User.can_view_orders, User.is_admin, PyVal.truthy]
  · simp only [User.can_edit_products, User.can_filter, User.can_edit_orders,
      User.can_view_orders, User.is_admin, PyVal.truthy]
    refine ⟨?_, ?_, ?_⟩ <;> intro h <;>
      simp only [beq_iff_eq] at h <;> simp [h, Role.ADMIN, Role.MANAGER]

/-- C10, witness: the monotonicity applied to a concrete admin user. -/
theorem capability_monotone_witness :
    ((⟨"a", "", Option.some ⟨"admin"⟩⟩ : User).can_edit_products).truthy = true
    ∧ ((⟨"a", "", Option.some ⟨"admin"⟩⟩ : User).can_filter).truthy = true
    ∧ ((⟨"a", "", Option.some ⟨"admin"⟩⟩ : User).can_view_orders).truthy = true :=
  ⟨by decide,
   (capability_monotone ⟨"a", "", Option.some ⟨"admin"⟩⟩).1 (by decide),
   ((capability_monotone ⟨"a", "", Option.some ⟨"admin"⟩⟩).2.2 (by decide)).2⟩

/-- C8, counterexample: a product with `stock = 0` and `discount = 0`
gets the out-of-stock tag `table-info`, not the empty string the claim
requires of every zero-discount product. -/
theorem row_class_counterexample :
    ProdRec.get_row_class ⟨"A1", "Ботинки", "пара", 100, 0, 0, "", Option.none, "Обувь", "X", "Y"⟩
      = "table-info"
    ∧ (⟨"A1", "Ботинки", "пара", 100, 0, 0, "", Option.none, "Обувь", "X", "Y"⟩ : ProdRec).discount = 0
    ∧ "table-info" ≠ "" := by
  decide

/-- C8, amended: `stock = 0` yields `table-info` regardless of
discount; for in-stock products, `discount = 20` yields `row-sale` and
`discount = 0` yields the empty string (the zero-discount clause only
holds for in-stock products). -/
theorem row_class_spec (p : ProdRec) :
    (p.stock = 0 → p.get_row_class = "table-info")
    ∧ (0 < p.stock → p.discount = 20 → p.get_row_class = "row-sale")
    ∧ (0 < p.stock → p.discount = 0 → p.get_row_class = "") := by
  unfold ProdRec.get_row_class
  refine ⟨fun h => by simp [h], fun h1 h2 => ?_, fun h1 h2 => ?_⟩
  · have hs : (p.stock == 0) = false := by simp; omega
    have hd : p.discount > 15 := by rw [h2]; norm_num
    simp [hs, hd]
  · have hs : (p.stock == 0) = false := by simp; omega
    have hd : ¬ p.discount > 15 := by rw [h2]; norm_num
    simp [hs, hd]

/-- C8, witness: the amended clauses evaluated on concrete products. -/
theorem row_class_spec_witness :
    ProdRec.get_row_class ⟨"w1", "n", "пара", 100, 50, 0, "", Option.none, "c", "m", "s"⟩ = "table-info"
    ∧ ProdRec.get_row_class ⟨"w2", "n", "пара", 100, 20, 3, "", Option.none, "c", "m", "s"⟩ = "row-sale"
    ∧ ProdRec.get_row_class ⟨"w3", "n", "пара", 100, 0, 3, "", Option.none, "c", "m", "s"⟩ = "" :=
  ⟨(row_class_spec _).1 rfl,
   (row_class_spec _).2.1 (by decide) rfl,
   (row_class_spec _).2.2 (by decide) rfl⟩

/-- C9: the on-sale styling has a strict threshold of 15: an in-stock
product with `0 < discount ≤ 15` has a discount (`has_discount`) yet an
empty row class, and `row-sale` appears only when `discount > 15`. -/
theorem sale_threshold_fifteen (p : ProdRec) :
    (0 < p.stock → 0 < p.discount → p.discount ≤ 15 →
        p.get_row_class = "" ∧ p.has_discount = true)
    ∧ (p.get_row_class = "row-sale" → 15 < p.discount) := by
  unfold ProdRec.get_row_class ProdRec.has_discount
  constructor
  · intro h1 h2 h3
    have hs : (p.stock == 0) = false := by simp; omega
    rw [hs, if_neg (not_lt.mpr h3)]
    exact ⟨rfl, by simpa using h2⟩
  · intro h
    by_cases hs : p.stock == 0
    · rw [if_pos hs] at h; exact absurd h (by decide)
    · rw [if_neg hs] at h
      by_cases hd : p.discount > 15
      · exact hd
      · rw [if_neg hd] at h; exact absurd h (by decide)

/-- C9, witness: the threshold behaviour evaluated on a concrete
in-stock product with a 10 percent discount. -/
theorem sale_threshold_fifteen_witness :
    (ProdRec.get_row_class ⟨"w4", "n", "пара", 100, 10, 5, "", Option.none, "c", "m", "s"⟩ = ""
      ∧ ProdRec.has_discount ⟨"w4", "n", "пара", 100, 10, 5, "", Option.none, "c", "m", "s"⟩ = true)
    ∧ (15 : ℚ) < (⟨"w5", "n", "пара", 100, 20, 5, "", Option.none, "c", "m", "s"⟩ : ProdRec).discount :=
  ⟨(sale_threshold_fifteen _).1 (by decide) (by decide) (by decide),
   (sale_threshold_fifteen ⟨"w5", "n", "пара", 100, 20, 5, "", Option.none, "c", "m", "s"⟩).2 (by decide)⟩

/-- C7, counterexample: `"%15"` does not end in a percent sign and is
not parseable as a number, so by the claim its stored discount should
be `0.0`; the code removes every percent sign via replace and so strips the leading percent
sign as well and stores `15.0`. -/
theorem discount_percent_counterexample :
    parse_discount (Cell.str "%15") = 15
    ∧ pyFloat "%15" = Option.none
    ∧ (15 : ℚ) ≠ 0 := by
  decide

/-- C7, amended: the import removes every percent sign anywhere in the
discount string (`str.replace('%','')`), trims, and coerces to a float;
only when the string after that removal still fails to parse does the
discount default to `0.0`.  In particular a string ending in its only
percent sign parses as the claim describes. -/
theorem discount_strip_all_percents :
    (∀ s : String, '%' ∉ s.data →
        parse_discount (Cell.str (s ++ "%")) = (pyFloat (pyStrip s)).getD 0)
    ∧ (∀ s : String, s.data ≠ [] →
        pyFloat (pyStrip (stripPercents s)) = Option.none →
        parse_discount (Cell.str s) = 0) := by
  constructor
  · intro s h
    have hd : (s ++ "%").data = s.data ++ ['%'] := String.data_append ..
    have hfalsy : Cell.falsy (Cell.str (s ++ "%")) = false := by
      simp [Cell.falsy, hd]
    have hstrip : stripPercents (s ++ "%") = s := by
      unfold stripPercents
      rw [hd, List.filter_append]
      have h1 : s.data.filter (fun c => c != '%') = s.data :=
        List.filter_eq_self.mpr (fun a ha => by
          have : a ≠ '%' := fun e => h (e ▸ ha)
          simpa using this)
      have h2 : ['%'].filter (fun c => c != '%') = [] := by decide
      rw [h1, h2, List.append_nil]
    unfold parse_discount pyOr0
    rw [hfalsy]
    simp only [Bool.false_eq_true, if_false, cellStr, hstrip]
  · intro s h h2
    have hfalsy : Cell.falsy (Cell.str s) = false := by
      simp [Cell.falsy, h]
    unfold parse_discount pyOr0
    rw [hfalsy]
    simp only [Bool.false_eq_true, if_false, cellStr, h2, Option.getD_none]

/-- C7, witness: both amended clauses evaluated on concrete discount
strings (`"15%"` parses to `15`, `"abc"` defaults to `0`). -/
theorem discount_strip_all_percents_witness :
    parse_discount (Cell.str ("15" ++ "%")) = (pyFloat (pyStrip "15")).getD 0
    ∧ parse_discount (Cell.str "abc") = 0 :=
  ⟨discount_strip_all_percents.1 "15" (by decide),
   discount_strip_all_percents.2 "abc" (by decide) (by decide)⟩

/-- C4: for a user allowed to edit products, deleting a product whose
article appears on at least one order reports the referential-conflict
message and leaves the entire store state unchanged (on GET and POST
alike). -/
theorem product_delete_conflict_guard (u : User) (st : WebState) (pk : Nat)
    (isPost : Bool) (p : ProdRec)
    (hu : (u.can_edit_products).truthy = true)
    (hp : st.products[pk]? = Option.some p)
    (ho : st.orders.any (fun o => o.article == p.article) = true) :
    product_delete u st pk isPost = (st, ViewResult.redirectError (conflictMsg p.name)) := by
  unfold product_delete
  rw [hu]
  simp only [Bool.not_true, Bool.false_eq_true, if_false, hp, ho, if_true]

/-- C4, witness: the guard evaluated on a concrete admin, store and
referenced product. -/
theorem product_delete_conflict_guard_witness :
    product_delete ⟨"a", "", Option.some ⟨"admin"⟩⟩
      ⟨[⟨"A1", "Ботинки", "пара", 100, 0, 3, "", Option.none, "c", "m", "s"⟩],
       [⟨5, "A1", ⟨2024, 1, 1⟩, Option.none, Option.none, "Иванов", "111", "new"⟩]⟩
      0 true
    = (⟨[⟨"A1", "Ботинки", "пара", 100, 0, 3, "", Option.none, "c", "m", "s"⟩],
        [⟨5, "A1", ⟨2024, 1, 1⟩, Option.none, Option.none, "Иванов", "111", "new"⟩]⟩,
       ViewResult.redirectError (conflictMsg "Ботинки")) :=
  product_delete_conflict_guard ⟨"a", "", Option.some ⟨"admin"⟩⟩
    ⟨[⟨"A1", "Ботинки", "пара", 100, 0, 3, "", Option.none, "c", "m", "s"⟩],
     [⟨5, "A1", ⟨2024, 1, 1⟩, Option.none, Option.none, "Иванов", "111", "new"⟩]⟩
    0 true ⟨"A1", "Ботинки", "пара", 100, 0, 3, "", Option.none, "c", "m", "s"⟩
    (by decide) (by decide) (by decide)

/-- C5: an order row whose number cell does not coerce to an integer is
skipped before any state is touched: the store (orders, delivery
points, warnings) is returned unchanged and no order is created. -/
theorem order_import_bad_number_skips (today : Date) (st : OState) (r : Row)
    (h : pyIntOfCell (rowGet r "Номер заказа" (Cell.int 0)) = Option.none) :
    importOrderRow today st r = st := by
  unfold importOrderRow
  by_cases hs : rowSkip r
  · rw [if_pos hs]
  · rw [if_neg hs, h]

/-- C5, witness: a row with the non-numeric order number `"abc"` leaves
a concrete store unchanged. -/
theorem order_import_bad_number_skips_witness :
    importOrderRow ⟨2025, 1, 1⟩ ⟨["Москва"], [], []⟩
      [("Номер заказа", Cell.str "abc"), ("Артикул заказа", Cell.str "A1")]
    = ⟨["Москва"], [], []⟩ :=
  order_import_bad_number_skips _ _ _ (by decide)

/-- C3, counterexample: a delivery-date cell holding the integer `5` —
a value that does not match `DD.MM.YYYY` — is stored as `None` (not the
current date) and produces no warning, because `parse_date` substitutes
the current date only for string cells. -/
theorem nonstring_date_counterexample :
    (importOrderRow ⟨2025, 6, 15⟩ ⟨[], [], []⟩
        [("Номер заказа", Cell.int 1), ("Дата заказа", Cell.str "01.02.2024"),
         ("Дата доставки", Cell.int 5)]).warnings = []
    ∧ (importOrderRow ⟨2025, 6, 15⟩ ⟨[], [], []⟩
        [("Номер заказа", Cell.int 1), ("Дата заказа", Cell.str "01.02.2024"),
         ("Дата доставки", Cell.int 5)]).orders.map OrderRec.delivery_date
      = [Option.none]
    ∧ Option.none ≠ Option.some (⟨2025, 6, 15⟩ : Date) := by
  decide

/-- C3, amended: only string-valued date cells that fail `DD.MM.YYYY`
parsing are replaced by the current date with a warning carrying the
order number; a non-string, non-datetime cell silently yields `None`
(the order date then falls back to the current date without a warning,
the delivery date is stored empty).  The first clause is the
`parse_date` contract used for both date columns; the second shows the
warning reaching the output of the import and the substituted current date
reaching the stored order for the delivery-date column. -/
theorem invalid_string_date_fallback :
    (∀ (number : Int) (label : String) (today : Date) (s : String),
        strptimeDMY s = Option.none →
        parse_date number label today (Cell.str s)
          = (Option.some today, [⟨number, label, s⟩]))
    ∧ (∀ (today : Date) (st : OState) (r : Row) (n : Int) (ds : String),
        rowSkip r = false →
        pyIntOfCell (rowGet r "Номер заказа" (Cell.int 0)) = Option.some n →
        rowGet r "Дата доставки" Cell.empty = Cell.str ds →
        strptimeDMY ds = Option.none →
        (⟨n, "доставки", ds⟩ : Warn) ∈ (importOrderRow today st r).warnings
        ∧ (st.orders.any (fun o => o.number == n) = false →
            (importOrderRow today st r).orders.map OrderRec.delivery_date
              = st.orders.map OrderRec.delivery_date ++ [Option.some today])) := by
  have hstr : ∀ (number : Int) (label : String) (today : Date) (s : String),
      strptimeDMY s = Option.none →
      parse_date number label today (Cell.str s)
        = (Option.some today, [⟨number, label, s⟩]) := by
    intro number label today s h
    simp only [parse_date]
    rw [h]
  refine ⟨hstr, ?_⟩
  intro today st r n ds h0 h1 h2 h3
  have hdd : parse_date n "доставки" today (rowGet r "Дата доставки" Cell.empty)
      = (Option.some today, [⟨n, "доставки", ds⟩]) := by
    rw [h2]; exact hstr n "доставки" today ds h3
  constructor
  · simp only [importOrderRow, h0, h1, hdd, Bool.false_eq_true, if_false]
    split
    · simp
    · simp
  · intro hfresh
    simp only [importOrderRow, h0, h1, hdd, Bool.false_eq_true, if_false, hfresh,
      List.map_append, List.map_cons, List.map_nil]

/-- C3, witness: the amended statement evaluated on a concrete invalid
date string and on a concrete order row with an invalid delivery date. -/
theorem invalid_string_date_fallback_witness :
    parse_date 7 "заказа" ⟨2025, 6, 15⟩ (Cell.str "2024-01-01")
      = (Option.some ⟨2025, 6, 15⟩, [⟨7, "заказа", "2024-01-01"⟩])
    ∧ (⟨2, "доставки", "bad"⟩ : Warn) ∈ (importOrderRow ⟨2025, 6, 15⟩ ⟨[], [], []⟩
        [("Номер заказа", Cell.int 2), ("Дата доставки", Cell.str "bad")]).warnings
    ∧ (importOrderRow ⟨2025, 6, 15⟩ ⟨[], [], []⟩
        [("Номер заказа", Cell.int 2), ("Дата доставки", Cell.str "bad")]).orders.map
          OrderRec.delivery_date = [Option.some ⟨2025, 6, 15⟩] :=
  ⟨invalid_string_date_fallback.1 7 "заказа" ⟨2025, 6, 15⟩ "2024-01-01" (by decide),
   (invalid_string_date_fallback.2 ⟨2025, 6, 15⟩ ⟨[], [], []⟩
      [("Номер заказа", Cell.int 2), ("Дата доставки", Cell.str "bad")] 2 "bad"
      (by decide) (by decide) (by decide) (by decide)).1,
   (invalid_string_date_fallback.2 ⟨2025, 6, 15⟩ ⟨[], [], []⟩
      [("Номер заказа", Cell.int 2), ("Дата доставки", Cell.str "bad")] 2 "bad"
      (by decide) (by decide) (by decide) (by decide)).2 (by decide)⟩

/-- Each order row only appends to the order table: a skipped row, a
bad order number, or an already-present number leaves it unchanged, a
fresh number appends a single order. -/
theorem importOrderRow_orders_extend (today : Date) (st : OState) (r : Row) :
    ∃ t, (importOrderRow today st r).orders = st.orders ++ t := by
  unfold importOrderRow
  by_cases hs : rowSkip r
  · simp only [hs, if_true]
    exact ⟨[], (List.append_nil _).symm⟩
  · simp only [hs, Bool.false_eq_true, if_false]
    rcases hck : pyIntOfCell (rowGet r "Номер заказа" (Cell.int 0)) with _ | k
    · exact ⟨[], (List.append_nil _).symm⟩
    · simp only []
      split
      · exact ⟨[], (List.append_nil _).symm⟩
      · exact ⟨_, rfl⟩

/-- C6: re-running the order import never modifies an existing order:
the order table after any import run is the untouched input table with
some new orders appended (`get_or_create` keyed by `number` is
create-only), so every field of every pre-existing order is unchanged
regardless of what the rows with the same numbers contain. -/
theorem order_import_create_only (today : Date) (st : OState) (rows : List Row) :
    ∃ added, (importOrders today st rows).orders = st.orders ++ added := by
  induction rows generalizing st with
  | nil => exact ⟨[], by simp [importOrders]⟩
  | cons r rest ih =>
    obtain ⟨t, ht⟩ := importOrderRow_orders_extend today st r
    obtain ⟨u, hu⟩ := ih (importOrderRow today st r)
    refine ⟨t ++ u, ?_⟩
    have : importOrders today st (r :: rest)
        = importOrders today (importOrderRow today st r) rest := rfl
    rw [this, hu, ht, List.append_assoc]

/-! ### Idempotence of the product import (C1)

The lookup tables absorb a re-run because every name is already
present; the product table absorbs it because the re-run performs the
same sequence of in-place overwrites (ending with the same last write
per article) and never fires the photo step again. -/

theorem mem_getOrCreateName (l : List String) (n x : String) (h : x ∈ l) :
    x ∈ getOrCreateName l n := by
  unfold getOrCreateName
  split
  · exact h
  · exact List.mem_append_left _ h

theorem self_mem_getOrCreateName (l : List String) (n : String) :
    n ∈ getOrCreateName l n := by
  unfold getOrCreateName
  split
  · assumption
  · exact List.mem_append_right _ (List.mem_singleton.mpr rfl)

theorem getOrCreateName_of_mem (l : List String) (n : String) (h : n ∈ l) :
    getOrCreateName l n = l :=
  if_pos h

theorem mem_nameStep (f : Row → String) (l : List String) (r : Row) (x : String)
    (h : x ∈ l) : x ∈ nameStep f l r := by
  unfold nameStep
  split
  · exact h
  · exact mem_getOrCreateName _ _ _ h

theorem mem_foldl_nameStep (f : Row → String) (rows : List Row) (l : List String)
    (x : String) (h : x ∈ l) : x ∈ List.foldl (nameStep f) l rows := by
  induction rows generalizing l with
  | nil => exact h
  | cons r rest ih => exact ih _ (mem_nameStep _ _ _ _ h)

theorem nameStep_captures (f : Row → String) (rows : List Row) (l : List String)
    (r : Row) (hr : r ∈ rows) (hs : rowSkip r = false) :
    f r ∈ List.foldl (nameStep f) l rows := by
  induction rows generalizing l with
  | nil => cases hr
  | cons b rest ih =>
    rw [List.foldl_cons]
    cases List.mem_cons.mp hr with
    | inl e =>
      subst e
      apply mem_foldl_nameStep
      unfold nameStep
      rw [hs]
      simp only [Bool.false_eq_true, if_false]
      exact self_mem_getOrCreateName _ _
    | inr hr2 => exact ih _ hr2

theorem foldl_nameStep_id (f : Row → String) (rows : List Row) (l : List String)
    (h : ∀ r ∈ rows, rowSkip r = false → f r ∈ l) :
    List.foldl (nameStep f) l rows = l := by
  induction rows with
  | nil => rfl
  | cons b rest ih =>
    have hstep : nameStep f l b = l := by
      unfold nameStep
      cases hs : rowSkip b with
      | true => simp
      | false =>
        simp only [Bool.false_eq_true, if_false]
        exact getOrCreateName_of_mem _ _ (h b (List.mem_cons_self ..) hs)
    rw [List.foldl_cons, hstep]
    exact ih (fun r hr hsk => h r (List.mem_cons_of_mem _ hr) hsk)

theorem nameStep_absorb (f : Row → String) (rows : List Row) (l : List String) :
    List.foldl (nameStep f) (List.foldl (nameStep f) l rows) rows
      = List.foldl (nameStep f) l rows :=
  foldl_nameStep_id _ _ _ (fun _ hr hs => nameStep_captures _ _ _ _ hr hs)

theorem ProdRec.eq_of (p q : ProdRec) (h1 : p.article = q.article)
    (h2 : p.image = q.image) (h3 : p.fieldsOf = q.fieldsOf) : p = q := by
  cases p
  cases q
  simp only [ProdRec.fieldsOf, ProdFields.mk.injEq] at h3
  simp_all

theorem fieldsOf_withFields (p : ProdRec) (d : ProdFields) :
    (p.withFields d).fieldsOf = d := by
  cases d
  rfl

theorem fieldsOf_newProd (a : String) (d : ProdFields) :
    (newProd a d).fieldsOf = d := by
  cases d
  rfl

theorem article_updFields (a : String) (d : ProdFields) (p : ProdRec) :
    (updFields a d p).article = p.article := by
  unfold updFields
  split <;> rfl

theorem image_updFields (a : String) (d : ProdFields) (p : ProdRec) :
    (updFields a d p).image = p.image := by
  unfold updFields
  split <;> rfl

theorem fieldsOf_updFields_of_eq (a : String) (d : ProdFields) (p : ProdRec)
    (h : p.article = a) : (updFields a d p).fieldsOf = d := by
  unfold updFields
  rw [if_pos (by simp [h])]
  try exact fieldsOf_withFields p d

theorem fieldsOf_updFields_of_ne (a : String) (d : ProdFields) (p : ProdRec)
    (h : ¬ p.article = a) : (updFields a d p).fieldsOf = p.fieldsOf := by
  unfold updFields
  rw [if_neg (by simpa using h)]

theorem map_article_map_updFields (l : List ProdRec) (a : String) (d : ProdFields) :
    (l.map (updFields a d)).map ProdRec.article = l.map ProdRec.article := by
  rw [List.map_map]
  exact List.map_congr_left (fun p _ => article_updFields a d p)

theorem map_image_map_updFields (l : List ProdRec) (a : String) (d : ProdFields) :
    (l.map (updFields a d)).map ProdRec.image = l.map ProdRec.image := by
  rw [List.map_map]
  exact List.map_congr_left (fun p _ => image_updFields a d p)

theorem article_setImageElem (a : String) (i : String) (p : ProdRec) :
    (if p.article == a then { p with image := Option.some i } else p).article = p.article := by
  split <;> rfl

theorem map_article_setImage (l : List ProdRec) (a : String) (i : String) :
    (setImage l a i).map ProdRec.article = l.map ProdRec.article := by
  unfold setImage
  rw [List.map_map]
  exact List.map_congr_left (fun p _ => article_setImageElem a i p)

theorem any_article_iff (l : List ProdRec) (a : String) :
    l.any (fun p => p.article == a) = true ↔ a ∈ l.map ProdRec.article := by
  simp only [List.any_eq_true, List.mem_map, beq_iff_eq]

theorem imageOf_congr (c : List ProdRec) (a : String) :
    ∀ l1 : List ProdRec, c.map ProdRec.article = l1.map ProdRec.article →
      c.map ProdRec.image = l1.map ProdRec.image →
      imageOf c a = imageOf l1 a := by
  induction c with
  | nil =>
    intro l1 ha _
    have : l1 = [] := by
      cases l1
      · rfl
      · simp at ha
    subst this
    rfl
  | cons p t ih =>
    intro l1 ha hi
    cases l1 with
    | nil => simp at ha
    | cons q t1 =>
      simp only [List.map_cons, List.cons.injEq] at ha hi
      unfold imageOf
      rw [List.find?_cons, List.find?_cons, ha.1]
      cases hb : q.article == a with
      | true => simp only [hb, if_true, Option.some_bind, hi.1]
      | false =>
        simp only [hb, Bool.false_eq_true, if_false]
        exact ih t1 ha.2 hi.2

theorem imageOf_append_new (l : List ProdRec) (a b : String) (d : ProdFields) :
    imageOf (l ++ [newProd a d]) b = imageOf l b := by
  unfold imageOf
  rw [List.find?_append]
  cases hf : List.find? (fun p => p.article == b) l with
  | some p => rfl
  | none =>
    simp only [Option.none_or]
    rw [List.find?_cons]
    split
    · rfl
    · rfl

theorem imageOf_upsert (l : List ProdRec) (a b : String) (d : ProdFields) :
    imageOf (upsertProduct l a d) b = imageOf l b := by
  unfold upsertProduct
  split
  · exact imageOf_congr _ b l (map_article_map_updFields l a d) (map_image_map_updFields l a d)
  · exact imageOf_append_new l a b d

theorem find?_setImage (l : List ProdRec) (a b i : String) :
    List.find? (fun p => p.article == b) (setImage l a i)
      = (List.find? (fun p => p.article == b) l).map
          (fun p => if p.article == a then { p with image := Option.some i } else p) := by
  induction l with
  | nil => rfl
  | cons p t ih =>
    unfold setImage at *
    simp only [List.map_cons, List.find?_cons, article_setImageElem]
    cases hb : p.article == b with
    | true => simp [hb]
    | false =>
      simp only [hb, Bool.false_eq_true, if_false]
      simpa using ih

theorem imageOf_setImage_self (l : List ProdRec) (a i : String)
    (h : a ∈ l.map ProdRec.article) : imageOf (setImage l a i) a = Option.some i := by
  unfold imageOf
  rw [find?_setImage]
  cases hf : List.find? (fun p => p.article == a) l with
  | none =>
    have : ∃ p ∈ l, (fun p : ProdRec => p.article == a) p := by
      rcases List.mem_map.mp h with ⟨p, hp, e⟩
      exact ⟨p, hp, by simp [e]⟩
    have := List.find?_isSome.mpr this
    rw [hf] at this
    simp at this
  | some p =>
    have hp := List.find?_some hf
    have hpa : p.article = a := by simpa using hp
    simp [hpa]

theorem imageOf_setImage_ne (l : List ProdRec) (a b i : String) (h : b ≠ a) :
    imageOf (setImage l a i) b = imageOf l b := by
  unfold imageOf
  rw [find?_setImage]
  cases hf : List.find? (fun p => p.article == b) l with
  | none => rfl
  | some p =>
    have hp := List.find?_some hf
    have hpb : p.article = b := by simpa using hp
    simp [hpb, h]

theorem article_mem_upsert_self (l : List ProdRec) (a : String) (d : ProdFields) :
    a ∈ (upsertProduct l a d).map ProdRec.article := by
  unfold upsertProduct
  split
  · rw [map_article_map_updFields]
    exact (any_article_iff l a).mp (by assumption)
  · rw [List.map_append]
    exact List.mem_append_right _ (by simp [newProd])

theorem fieldsOf_setImageElem (a i : String) (p : ProdRec) :
    (if p.article == a then { p with image := Option.some i } else p).fieldsOf
      = p.fieldsOf := by
  split <;> rfl

theorem prodStep_skip (fe : String → Bool) (l : List ProdRec) (r : Row)
    (h : rowSkip r = true) : prodStep fe l r = l := by
  unfold prodStep
  rw [if_pos h]

theorem prodStep_not_skip (fe : String → Bool) (l : List ProdRec) (r : Row)
    (h : rowSkip r = false) :
    prodStep fe l r
      = photoStep fe (upsertProduct l (prodArticle r) (prodFields r))
          (prodArticle r) (prodPhoto r) := by
  unfold prodStep
  rw [h]
  simp only [Bool.false_eq_true, if_false]

theorem map_article_photoStep (fe : String → Bool) (l1 : List ProdRec) (a photo : String) :
    (photoStep fe l1 a photo).map ProdRec.article = l1.map ProdRec.article := by
  unfold photoStep
  split
  · split
    · exact map_article_setImage l1 a _
    · rfl
  · rfl

theorem photoStep_shape (fe : String → Bool) (l1 : List ProdRec) (a photo : String) :
    ∀ p ∈ photoStep fe l1 a photo,
      ∃ q ∈ l1, p.article = q.article ∧ p.fieldsOf = q.fieldsOf := by
  unfold photoStep
  intro p hp
  split at hp
  · split at hp
    · unfold setImage at hp
      rcases List.mem_map.mp hp with ⟨q, hq, rfl⟩
      exact ⟨q, hq, article_setImageElem a _ q, fieldsOf_setImageElem a _ q⟩
    · exact ⟨p, hp, rfl, rfl⟩
  · exact ⟨p, hp, rfl, rfl⟩

theorem photoStep_eq_of (fe : String → Bool) (l1 : List ProdRec) (a photo : String)
    (h : photo.data.isEmpty = false → fe photo = true →
        imageFalsy (imageOf l1 a) = false) :
    photoStep fe l1 a photo = l1 := by
  unfold photoStep
  by_cases he : photo.data.isEmpty
  · rw [if_neg (by simp [he])]
  · by_cases hfe : fe photo = true
    · have himg := h (by simpa using he) hfe
      rw [if_neg (by simp [himg])]
    · by_cases hcond : (!photo.data.isEmpty && imageFalsy (imageOf l1 a)) = true
      · rw [if_pos hcond, if_neg hfe]
      · rw [if_neg hcond]

theorem upsert_shape_self (l : List ProdRec) (a : String) (d : ProdFields) :
    ∀ p ∈ upsertProduct l a d, p.article = a → p.fieldsOf = d := by
  unfold upsertProduct
  by_cases hany : l.any (fun p => p.article == a) = true
  · rw [if_pos hany]
    intro p hp hpa
    rcases List.mem_map.mp hp with ⟨q, hq, rfl⟩
    exact fieldsOf_updFields_of_eq a d q (by rw [← article_updFields a d q]; exact hpa)
  · rw [if_neg hany]
    intro p hp hpa
    rcases List.mem_append.mp hp with hl | hr
    · exfalso
      exact hany (List.any_eq_true.mpr ⟨p, hl, by simp [hpa]⟩)
    · have : p = newProd a d := by simpa using hr
      rw [this]
      exact fieldsOf_newProd a d

theorem upsert_shape_other (l : List ProdRec) (a : String) (d : ProdFields) :
    ∀ p ∈ upsertProduct l a d, p.article ≠ a →
      ∃ q ∈ l, p.article = q.article ∧ p.fieldsOf = q.fieldsOf := by
  unfold upsertProduct
  split
  · intro p hp hpa
    rcases List.mem_map.mp hp with ⟨q, hq, rfl⟩
    refine ⟨q, hq, article_updFields a d q, ?_⟩
    apply fieldsOf_updFields_of_ne
    rw [← article_updFields a d q]
    exact hpa
  · intro p hp hpa
    rcases List.mem_append.mp hp with hl | hr
    · exact ⟨p, hl, rfl, rfl⟩
    · exfalso
      have : p = newProd a d := by simpa using hr
      rw [this] at hpa
      exact hpa rfl

theorem all_fields_prodStep_self (fe : String → Bool) (l : List ProdRec) (r : Row)
    (hs : rowSkip r = false) :
    ∀ p ∈ prodStep fe l r, p.article = prodArticle r → p.fieldsOf = prodFields r := by
  rw [prodStep_not_skip fe l r hs]
  intro p hp hpa
  obtain ⟨q, hq, ha, hf⟩ := photoStep_shape _ _ _ _ p hp
  rw [hf]
  exact upsert_shape_self _ _ _ q hq (ha ▸ hpa)

theorem all_fields_prodStep_preserve (fe : String → Bool) (l : List ProdRec) (r : Row)
    (a : String) (d : ProdFields)
    (h : ∀ p ∈ l, p.article = a → p.fieldsOf = d)
    (hcase : rowSkip r = true ∨ prodArticle r ≠ a) :
    ∀ p ∈ prodStep fe l r, p.article = a → p.fieldsOf = d := by
  cases hs : rowSkip r with
  | true =>
    rw [prodStep_skip fe l r hs]
    exact h
  | false =>
    have hne : prodArticle r ≠ a := by
      rcases hcase with hc | hc
      · rw [hs] at hc
        cases hc
      · exact hc
    rw [prodStep_not_skip fe l r hs]
    intro p hp hpa
    obtain ⟨q, hq, ha2, hf⟩ := photoStep_shape _ _ _ _ p hp
    obtain ⟨q2, hq2, ha3, hf3⟩ :=
      upsert_shape_other _ _ _ q hq (by rw [← ha2, hpa]; exact fun e => hne e.symm)
    rw [hf, hf3]
    exact h q2 hq2 (by rw [← ha3, ← ha2]; exact hpa)

theorem pendingA_nil (a : String) : pendingA [] a = [] := rfl

theorem pendingA_cons_pos (r : Row) (rows : List Row) (a : String)
    (h1 : rowSkip r = false) (h2 : prodArticle r = a) :
    pendingA (r :: rows) a = prodFields r :: pendingA rows a := by
  simp [pendingA, List.filterMap_cons, h1, h2]

theorem pendingA_cons_neg (r : Row) (rows : List Row) (a : String)
    (h : ¬ (rowSkip r = false ∧ prodArticle r = a)) :
    pendingA (r :: rows) a = pendingA rows a := by
  simp only [pendingA, List.filterMap_cons, if_neg h]

theorem pendingA_append (xs ys : List Row) (a : String) :
    pendingA (xs ++ ys) a = pendingA xs a ++ pendingA ys a := by
  simp [pendingA, List.filterMap_append]

theorem all_fields_foldl_preserve (fe : String → Bool) (rows : List Row)
    (l : List ProdRec) (a : String) (d : ProdFields)
    (h0 : ∀ p ∈ l, p.article = a → p.fieldsOf = d)
    (hrows : pendingA rows a = []) :
    ∀ p ∈ List.foldl (prodStep fe) l rows, p.article = a → p.fieldsOf = d := by
  induction rows generalizing l with
  | nil => exact h0
  | cons r rest ih =>
    by_cases hc : rowSkip r = false ∧ prodArticle r = a
    · rw [pendingA_cons_pos r rest a hc.1 hc.2] at hrows
      cases hrows
    · rw [pendingA_cons_neg r rest a hc] at hrows
      rw [List.foldl_cons]
      refine ih (prodStep fe l r) ?_ hrows
      apply all_fields_prodStep_preserve fe l r a d h0
      by_cases hsk : rowSkip r = true
      · exact Or.inl hsk
      · refine Or.inr ?_
        intro e
        exact hc ⟨by revert hsk; cases rowSkip r <;> simp, e⟩

theorem fields_last_write (fe : String → Bool) (rows : List Row) (l : List ProdRec) :
    ∀ p ∈ List.foldl (prodStep fe) l rows, ∀ d,
      (pendingA rows p.article).getLast? = Option.some d → p.fieldsOf = d := by
  induction rows generalizing l with
  | nil =>
    intro p _ d hd
    rw [pendingA_nil] at hd
    cases hd
  | cons r rest ih =>
    intro p hp d hd
    rw [List.foldl_cons] at hp
    by_cases hc : rowSkip r = false ∧ prodArticle r = p.article
    · rw [pendingA_cons_pos r rest _ hc.1 hc.2] at hd
      cases hrest : pendingA rest p.article with
      | nil =>
        rw [hrest] at hd
        simp only [List.getLast?_singleton, Option.some.injEq] at hd
        rw [← hd]
        exact all_fields_foldl_preserve fe rest (prodStep fe l r) p.article (prodFields r)
          (fun q hq hqa => all_fields_prodStep_self fe l r hc.1 q hq (by rw [hqa, hc.2]))
          hrest p hp rfl
      | cons x xs =>
        rw [hrest, List.getLast?_cons_cons] at hd
        exact ih (prodStep fe l r) p hp d (by rw [hrest]; exact hd)
    · rw [pendingA_cons_neg r rest _ hc] at hd
      exact ih (prodStep fe l r) p hp d hd

theorem article_mem_prodStep (fe : String → Bool) (l : List ProdRec) (r : Row)
    (x : String) (h : x ∈ l.map ProdRec.article) :
    x ∈ (prodStep fe l r).map ProdRec.article := by
  cases hs : rowSkip r with
  | true =>
    rw [prodStep_skip fe l r hs]
    exact h
  | false =>
    rw [prodStep_not_skip fe l r hs, map_article_photoStep]
    unfold upsertProduct
    split
    · rw [map_article_map_updFields]
      exact h
    · rw [List.map_append]
      exact List.mem_append_left _ h

theorem article_mem_foldl_prodStep_mono (fe : String → Bool) (rows : List Row)
    (l : List ProdRec) (x : String) (h : x ∈ l.map ProdRec.article) :
    x ∈ (List.foldl (prodStep fe) l rows).map ProdRec.article := by
  induction rows generalizing l with
  | nil => exact h
  | cons r rest ih =>
    rw [List.foldl_cons]
    exact ih _ (article_mem_prodStep fe l r x h)

theorem article_mem_foldl_prodStep (fe : String → Bool) (rows : List Row)
    (l : List ProdRec) (r : Row) (hr : r ∈ rows) (hs : rowSkip r = false) :
    prodArticle r ∈ (List.foldl (prodStep fe) l rows).map ProdRec.article := by
  induction rows generalizing l with
  | nil => cases hr
  | cons b rest ih =>
    rw [List.foldl_cons]
    cases List.mem_cons.mp hr with
    | inl e =>
      subst e
      apply article_mem_foldl_prodStep_mono
      rw [prodStep_not_skip fe l r hs, map_article_photoStep]
      exact article_mem_upsert_self l (prodArticle r) (prodFields r)
    | inr hr2 => exact ih _ hr2

theorem imageOf_nonfalsy_prodStep (fe : String → Bool) (l : List ProdRec) (r : Row)
    (a : String) (h : imageFalsy (imageOf l a) = false) :
    imageFalsy (imageOf (prodStep fe l r) a) = false := by
  cases hs : rowSkip r with
  | true =>
    rw [prodStep_skip fe l r hs]
    exact h
  | false =>
    rw [prodStep_not_skip fe l r hs]
    unfold photoStep
    by_cases hcond : (!(prodPhoto r).data.isEmpty
        && imageFalsy (imageOf (upsertProduct l (prodArticle r) (prodFields r)) (prodArticle r))) = true
    · rw [if_pos hcond]
      by_cases hfe : fe (prodPhoto r) = true
      · rw [if_pos hfe]
        by_cases haa : a = prodArticle r
        · exfalso
          have himg := (Bool.and_eq_true_iff.mp hcond).2
          rw [imageOf_upsert, ← haa] at himg
          rw [h] at himg
          cases himg
        · rw [imageOf_setImage_ne _ _ _ _ haa, imageOf_upsert]
          exact h
      · rw [if_neg hfe, imageOf_upsert]
        exact h
    · rw [if_neg hcond, imageOf_upsert]
      exact h

theorem imageOf_nonfalsy_foldl (fe : String → Bool) (rows : List Row)
    (l : List ProdRec) (a : String) (h : imageFalsy (imageOf l a) = false) :
    imageFalsy (imageOf (List.foldl (prodStep fe) l rows) a) = false := by
  induction rows generalizing l with
  | nil => exact h
  | cons r rest ih =>
    rw [List.foldl_cons]
    exact ih _ (imageOf_nonfalsy_prodStep fe l r a h)

theorem image_guarantee (fe : String → Bool) (rows : List Row) (l : List ProdRec)
    (r : Row) (hr : r ∈ rows) (hs : rowSkip r = false)
    (hp : (prodPhoto r).data.isEmpty = false) (hf : fe (prodPhoto r) = true) :
    imageFalsy (imageOf (List.foldl (prodStep fe) l rows) (prodArticle r)) = false := by
  obtain ⟨us, vs, rfl⟩ := List.append_of_mem hr
  rw [List.foldl_append, List.foldl_cons]
  apply imageOf_nonfalsy_foldl
  rw [prodStep_not_skip fe _ r hs]
  unfold photoStep
  by_cases himg : imageFalsy (imageOf (upsertProduct (List.foldl (prodStep fe) l us)
      (prodArticle r) (prodFields r)) (prodArticle r)) = true
  · rw [if_pos (by simp [hp, himg]), if_pos hf]
    rw [imageOf_setImage_self _ _ _ (article_mem_upsert_self _ _ _)]
    have : ("products/" ++ prodPhoto r).data = "products/".data ++ (prodPhoto r).data :=
      String.data_append ..
    simp [imageFalsy, this]
  · have himg2 : imageFalsy (imageOf (upsertProduct (List.foldl (prodStep fe) l us)
        (prodArticle r) (prodFields r)) (prodArticle r)) = false := by
      revert himg
      cases imageFalsy (imageOf (upsertProduct (List.foldl (prodStep fe) l us)
        (prodArticle r) (prodFields r)) (prodArticle r)) <;> simp
    rw [if_neg (by simp [himg2])]
    exact himg2

theorem article_getElem_eq (m l1 : List ProdRec)
    (ha : m.map ProdRec.article = l1.map ProdRec.article) (i : Nat)
    (h1 : i < m.length) (h2 : i < l1.length) : (m[i]).article = (l1[i]).article := by
  have e1 : (m.map ProdRec.article)[i]? = (l1.map ProdRec.article)[i]? := by rw [ha]
  rw [List.getElem?_map, List.getElem?_map, List.getElem?_eq_getElem h1,
    List.getElem?_eq_getElem h2] at e1
  simpa using e1

theorem image_getElem_eq (m l1 : List ProdRec)
    (hi : m.map ProdRec.image = l1.map ProdRec.image) (i : Nat)
    (h1 : i < m.length) (h2 : i < l1.length) : (m[i]).image = (l1[i]).image := by
  have e1 : (m.map ProdRec.image)[i]? = (l1.map ProdRec.image)[i]? := by rw [hi]
  rw [List.getElem?_map, List.getElem?_map, List.getElem?_eq_getElem h1,
    List.getElem?_eq_getElem h2] at e1
  simpa using e1

theorem list_eq_of_fields (m l1 : List ProdRec)
    (ha : m.map ProdRec.article = l1.map ProdRec.article)
    (hi : m.map ProdRec.image = l1.map ProdRec.image)
    (hf : ∀ (i : Nat) (h1 : i < m.length) (h2 : i < l1.length),
        (m[i]).fieldsOf = (l1[i]).fieldsOf) : m = l1 := by
  have hlen : m.length = l1.length := by
    have := congrArg List.length ha
    simpa using this
  apply List.ext_getElem hlen
  intro i h1 h2
  exact ProdRec.eq_of _ _ (article_getElem_eq m l1 ha i h1 h2)
    (image_getElem_eq m l1 hi i h1 h2) (hf i h1 h2)

theorem run2_fixed (fe : String → Bool) (rows : List Row) (l1 : List ProdRec)
    (H4 : ∀ r ∈ rows, rowSkip r = false → prodArticle r ∈ l1.map ProdRec.article)
    (H5 : ∀ r ∈ rows, rowSkip r = false → (prodPhoto r).data.isEmpty = false →
        fe (prodPhoto r) = true → imageFalsy (imageOf l1 (prodArticle r)) = false)
    (HL : ∀ p ∈ l1, ∀ d, (pendingA rows p.article).getLast? = Option.some d →
        p.fieldsOf = d) :
    ∀ ys, List.IsSuffix ys rows →
      ∀ m : List ProdRec, m.map ProdRec.article = l1.map ProdRec.article →
        m.map ProdRec.image = l1.map ProdRec.image →
        (∀ (i : Nat) (h1 : i < m.length) (h2 : i < l1.length),
            pendingA ys ((l1[i]).article) = [] → (m[i]).fieldsOf = (l1[i]).fieldsOf) →
        List.foldl (prodStep fe) m ys = l1 := by
  intro ys
  induction ys with
  | nil =>
    intro _ m ha hi hfld
    exact list_eq_of_fields m l1 ha hi (fun i h1 h2 => hfld i h1 h2 (pendingA_nil _))
  | cons r ys' ih =>
    intro hsuf m ha hi hfld
    have hsuf2 : List.IsSuffix ys' rows := List.IsSuffix.trans (List.suffix_cons r ys') hsuf
    have hrmem : r ∈ rows := hsuf.subset (List.mem_cons_self r ys')
    rw [List.foldl_cons]
    cases hs : rowSkip r with
    | true =>
      rw [prodStep_skip fe m r hs]
      apply ih hsuf2 m ha hi
      intro i h1 h2 hpend
      apply hfld i h1 h2
      rw [pendingA_cons_neg r ys' _ (fun hc2 => by rw [hs] at hc2; exact absurd hc2.1 (by simp))]
      exact hpend
    | false =>
      have hamem_l1 : prodArticle r ∈ l1.map ProdRec.article := H4 r hrmem hs
      have hamem_c : prodArticle r ∈ m.map ProdRec.article := by rw [ha]; exact hamem_l1
      have hany : m.any (fun p => p.article == prodArticle r) = true :=
        (any_article_iff m _).mpr hamem_c
      have hupsert : upsertProduct m (prodArticle r) (prodFields r)
          = m.map (updFields (prodArticle r) (prodFields r)) := by
        unfold upsertProduct
        rw [if_pos hany]
      have himgeq : imageOf (upsertProduct m (prodArticle r) (prodFields r)) (prodArticle r)
          = imageOf l1 (prodArticle r) := by
        rw [imageOf_upsert]
        exact imageOf_congr m _ l1 ha hi
      have hstep : prodStep fe m r = m.map (updFields (prodArticle r) (prodFields r)) := by
        rw [prodStep_not_skip fe m r hs]
        rw [photoStep_eq_of fe _ _ _
          (fun hpe hfe => by rw [himgeq]; exact H5 r hrmem hs hpe hfe)]
        exact hupsert
      rw [hstep]
      apply ih hsuf2
      · rw [map_article_map_updFields]
        exact ha
      · rw [map_image_map_updFields]
        exact hi
      · intro i h1 h2 hpend
        have h1c : i < m.length := by simpa using h1
        have hgetm : (m.map (updFields (prodArticle r) (prodFields r)))[i]
            = updFields (prodArticle r) (prodFields r) (m[i]) := List.getElem_map ..
        rw [hgetm]
        have hart : (m[i]).article = (l1[i]).article := article_getElem_eq m l1 ha i h1c h2
        by_cases hia : (l1[i]).article = prodArticle r
        · rw [fieldsOf_updFields_of_eq _ _ _ (by rw [hart, hia])]
          have hpend2 : pendingA ys' (prodArticle r) = [] := by
            rw [← hia]
            exact hpend
          have hlast : (pendingA rows ((l1[i]).article)).getLast?
              = Option.some (prodFields r) := by
            obtain ⟨xs, hxs⟩ := hsuf
            rw [hia, ← hxs, pendingA_append, pendingA_cons_pos r ys' _ hs rfl, hpend2]
            exact List.getLast?_concat ..
          exact (HL (l1[i]) (List.getElem_mem ..) (prodFields r) hlast).symm
        · rw [fieldsOf_updFields_of_ne _ _ _ (by rw [hart]; exact hia)]
          apply hfld i h1c h2
          rw [pendingA_cons_neg r ys' _ (fun hc2 => hia hc2.2.symm)]
          exact hpend

theorem prodStep_absorb (fe : String → Bool) (rows : List Row) (l : List ProdRec) :
    List.foldl (prodStep fe) (List.foldl (prodStep fe) l rows) rows
      = List.foldl (prodStep fe) l rows :=
  run2_fixed fe rows (List.foldl (prodStep fe) l rows)
    (fun r hr hs => article_mem_foldl_prodStep fe rows l r hr hs)
    (fun r hr hs hp hf => image_guarantee fe rows l r hr hs hp hf)
    (fields_last_write fe rows l)
    rows (List.suffix_refl rows)
    (List.foldl (prodStep fe) l rows) rfl rfl
    (fun _ _ _ _ => rfl)

theorem importProducts_components (fe : String → Bool) (st : PStore) (rows : List Row) :
    importProducts fe st rows = PStore.mk
      (List.foldl (nameStep catName) st.categories rows)
      (List.foldl (nameStep manName) st.manufacturers rows)
      (List.foldl (nameStep supName) st.suppliers rows)
      (List.foldl (prodStep fe) st.products rows) := by
  induction rows generalizing st with
  | nil => rfl
  | cons r rest ih =>
    show importProducts fe (importProductRow fe st r) rest = _
    rw [ih]
    rfl

/-- C1: running the product import twice from the same rows yields
exactly the same state as running it once — the same product records
and the same category, manufacturer and supplier lookup records.  The
upsert keyed by trimmed article overwrites every descriptive field with
the same values (the last row per article wins in both runs), every
lookup name is already present on the second run, and the photo step
never fires again (`fe` abstracts the unchanged image directory). -/
theorem import_products_idempotent (fe : String → Bool) (st : PStore) (rows : List Row) :
    importProducts fe (importProducts fe st rows) rows = importProducts fe st rows := by
  have h1 := importProducts_components fe st rows
  have h2 := importProducts_components fe (importProducts fe st rows) rows
  rw [h2, h1]
  dsimp only
  rw [nameStep_absorb, nameStep_absorb, nameStep_absorb, prodStep_absorb]
